import Mathlib

/-!
Shallow embedding of `src/azure-cli-core/azure/cli/core/extension/_resolve.py`.

The module resolves, for a named CLI extension, the best matching wheel from a
remote index: it filters candidates (universal wheel, CLI compatibility,
version floor), ranks the survivors by parsed version (descending, stable),
selects one (exact target version or the latest), and finally rewrites the
download URL for mirrored (air-gapped) clouds.

External collaborators (`get_index_extensions`, `WHEEL_INFO_RE` group lookup,
`ext_compat_with_cli`, `pkg_resources.parse_version`) are not part of the
source file; they are abstracted as fields of an environment `Env V`, where
`V` is the (linearly ordered) type of parsed versions and `parseVersion`
returns `none` exactly when `parse_version` would raise.

Python optional strings are modelled as `Option String`; Python truthiness
(`if not x`) is the predicate `truthy` below, under which both `None` and the
empty string count as absent.  Exception control flow is modelled by
`Except ResolveError`; each `raise` of the source is an early `.error` exit,
so the `do`-blocks of the source are written as explicit match cascades.
-/

set_option autoImplicit false

namespace AzExtResolve

/-- Python truthiness for an optional string: `None` and `""` are falsy. -/
def truthy : Option String → Bool
  | none => false
  | some s => s != ""

/-- The `project_urls` mapping inside wheel metadata; only the `Home` key is read. -/
structure ProjectUrls where
  Home : Option String
deriving DecidableEq, Repr

/-- The `python.details` entry of the metadata `extensions` mapping. -/
structure PythonDetails where
  project_urls : Option ProjectUrls
deriving DecidableEq, Repr

/-- The `extensions` mapping inside wheel metadata (field `python.details`). -/
structure MetadataExtensions where
  python_details : Option PythonDetails
deriving DecidableEq, Repr

/-- Wheel metadata: a required `version` string plus the optional nested
`extensions` tree used only by `resolve_project_url_from_index`.
Compatibility bounds are consulted only through the abstract predicate
`Env.extCompatWithCli`, so they are not represented as concrete fields. -/
structure Metadata where
  version : String
  extensions : Option MetadataExtensions
deriving DecidableEq, Repr

/-- One candidate record of the index: `filename`, `metadata`, and the two
optional fields read by `chosen.get` in the source. -/
structure Candidate where
  filename : String
  metadata : Metadata
  downloadUrl : Option String
  sha256Digest : Option String
deriving DecidableEq, Repr

/-- The parts of `cli_ctx` the resolver reads: whether
`cloud.endpoints.has_endpoint_set` holds for the azmirror storage account,
that endpoint value, and the local `config.get` of the extension index-url
override (with its `None` default). -/
structure CliCtx where
  hasAzmirrorStorageEndpointSet : Bool
  azmirrorStorageAccountResourceId : String
  extensionIndexUrlConfig : Option String
deriving DecidableEq, Repr

/-- Failure outcomes of resolution. `noCandidates` embeds
`NoExtensionCandidatesError`; `versionParseFailure` is an uncaught
`parse_version` failure; `indexOutOfRange` is an uncaught `IndexError`;
`cliError` is the knack `CLIError` raised by the project-url lookup. -/
inductive ResolveError where
  | noCandidates (msg : String)
  | versionParseFailure (s : String)
  | indexOutOfRange
  | cliError (msg : String)
deriving DecidableEq, Repr

/-- The external collaborators of `_resolve.py`, abstracted.
`wheelAbi f` and `wheelPlat f` are `WHEEL_INFO_RE(f).groupdict().get` for the
keys `abi` and `plat`; `extCompatWithCli` is the boolean head of the tuple
returned by `ext_compat_with_cli` (the remaining components are only logged);
`parseVersion` returns `none` exactly when `parse_version` raises;
`getIndexExtensions u ctx name` is
`get_index_extensions(index_url=u, cli_ctx=ctx).get(name, [])`. -/
structure Env (V : Type) where
  wheelAbi : String → Option String
  wheelPlat : String → Option String
  extCompatWithCli : Metadata → Bool
  parseVersion : String → Option V
  getIndexExtensions : Option String → Option CliCtx → String → List Candidate

variable {V : Type}

/-- Embeds `_is_not_platform_specific`: keep an item exactly when the parsed
filename has ABI tag `none` and platform tag `any` (checked in that order). -/
def _is_not_platform_specific (env : Env V) (item : Candidate) : Bool :=
  env.wheelAbi item.filename == some "none" && env.wheelPlat item.filename == some "any"

/-- Embeds `_is_compatible_with_cli_version`: only the boolean component of
the compatibility tuple steers control flow. -/
def _is_compatible_with_cli_version (env : Env V) (item : Candidate) : Bool :=
  env.extCompatWithCli item.metadata

/-- The `filter_func` closure returned by `_is_greater_than_cur_version` once
the threshold has been parsed: keep an item exactly when its parsed version is
strictly greater than the threshold; a parse failure of the item version is an
uncaught error. -/
def floorFilterFn [LinearOrder V] (env : Env V) (cur_version_parsed : V)
    (item : Candidate) : Except ResolveError Bool :=
  match env.parseVersion item.metadata.version with
  | none => .error (.versionParseFailure item.metadata.version)
  | some item_version => .ok (decide (cur_version_parsed < item_version))

/-- Embeds `_is_greater_than_cur_version`. For a falsy `cur_version` the
Python function returns `None` (modelled as `.ok none`); otherwise
`parse_version(cur_version)` runs at closure construction time, so a parse
failure of the threshold surfaces while the filter list is being built. -/
def _is_greater_than_cur_version [LinearOrder V] (env : Env V) (cur_version : Option String) :
    Except ResolveError (Option (Candidate → Except ResolveError Bool)) :=
  if truthy cur_version then
    match env.parseVersion (cur_version.getD "") with
    | none => .error (.versionParseFailure (cur_version.getD ""))
    | some cur_version_parsed => .ok (some (floorFilterFn env cur_version_parsed))
  else
    .ok none

/-- `list(filter(f, xs))` for a fallible predicate, evaluated left to right;
the first raised error aborts the traversal, as in Python. -/
def filterExcept (f : Candidate → Except ResolveError Bool) :
    List Candidate → Except ResolveError (List Candidate)
  | [] => .ok []
  | c :: cs =>
    match f c with
    | .error e => .error e
    | .ok keep =>
      match filterExcept f cs with
      | .error e => .error e
      | .ok rest => .ok (if keep then c :: rest else rest)

/-- One entry of the `filters` list. `none` models a literal Python `None`
entry: `filter(None, xs)` keeps the truthy items, and candidate records
(non-empty dicts) are always truthy, so every candidate is kept. -/
def applyFilterEntry (f : Option (Candidate → Except ResolveError Bool))
    (candidates : List Candidate) : Except ResolveError (List Candidate) :=
  match f with
  | none => .ok candidates
  | some f => filterExcept f candidates

/-- Wraps an infallible predicate as a filter entry. -/
def pureFilter (f : Candidate → Bool) : Option (Candidate → Except ResolveError Bool) :=
  some (fun c => .ok (f c))

/-- Builds the `filters` list of `resolve_from_index`: the universality and
compatibility filters always, and — only when `target_version` is falsy — the
entry returned by `_is_greater_than_cur_version(cur_version)`. -/
def buildFilters [LinearOrder V] (env : Env V) (cur_version target_version : Option String) :
    Except ResolveError (List (Option (Candidate → Except ResolveError Bool))) :=
  let base := [pureFilter (_is_not_platform_specific env),
               pureFilter (_is_compatible_with_cli_version env)]
  if truthy target_version then .ok base
  else
    match _is_greater_than_cur_version env cur_version with
    | .error e => .error e
    | .ok floorFilter => .ok (base ++ [floorFilter])

/-- The `for f in filters: candidates = list(filter(f, candidates))` loop:
each entry consumes the output of the previous entry. -/
def runFilters : List (Option (Candidate → Except ResolveError Bool)) →
    List Candidate → Except ResolveError (List Candidate)
  | [], candidates => .ok candidates
  | f :: fs, candidates =>
    match applyFilterEntry f candidates with
    | .error e => .error e
    | .ok candidates => runFilters fs candidates

/-- The whole filtering stage of `resolve_from_index`: build the filter list,
then run it over the candidates. -/
def filterStage [LinearOrder V] (env : Env V) (cur_version target_version : Option String)
    (candidates : List Candidate) : Except ResolveError (List Candidate) :=
  match buildFilters env cur_version target_version with
  | .error e => .error e
  | .ok filters => runFilters filters candidates

/-- The sort keys `parse_version(c.metadata.version)`, computed left to right
as CPython does before sorting; the first parse failure aborts. -/
def taggedVersions (env : Env V) : List Candidate → Except ResolveError (List (Candidate × V))
  | [] => .ok []
  | c :: cs =>
    match env.parseVersion c.metadata.version with
    | none => .error (.versionParseFailure c.metadata.version)
    | some v =>
      match taggedVersions env cs with
      | .error e => .error e
      | .ok rest => .ok ((c, v) :: rest)

/-- The ranking relation: `a` may stand before `b` exactly when the key of
`b` is at most the key of `a`. This is the total preorder of
`sorted(..., key=..., reverse=True)`; a stable sort under it is descending
with ties keeping their input order. -/
def rankRel [LinearOrder V] (a b : Candidate × V) : Prop :=
  b.2 ≤ a.2

instance [LinearOrder V] : DecidableRel (rankRel (V := V)) :=
  fun a b => inferInstanceAs (Decidable (b.2 ≤ a.2))

instance [LinearOrder V] : IsTrans (Candidate × V) rankRel :=
  ⟨fun _ _ _ h1 h2 => le_trans h2 h1⟩

instance [LinearOrder V] : IsTotal (Candidate × V) rankRel :=
  ⟨fun a b => le_total b.2 a.2⟩

/-- Embeds `sorted(candidates, key=lambda c: parse_version(...), reverse=True)`:
a stable descending sort by parsed version. CPython first computes every key
left to right (a parse failure surfaces at the first offending candidate) and
then sorts stably; since a stable sort under the total preorder `rankRel` is
a uniquely determined function of its input, the embedding may use any stable
sorting algorithm, here insertion sort. -/
def sortCandidates [LinearOrder V] (env : Env V) (candidates : List Candidate) :
    Except ResolveError (List Candidate) :=
  match taggedVersions env candidates with
  | .error e => .error e
  | .ok tagged => .ok ((tagged.insertionSort rankRel).map Prod.fst)

/-- The selection step. With a truthy `target_version` it is
`[c for c in candidates_sorted if c.metadata.version == target_version][0]`,
whose `IndexError` is caught and rethrown as `NoExtensionCandidatesError`;
otherwise it is `candidates_sorted[0]`, whose `IndexError` would propagate
(modelled as `indexOutOfRange`). -/
def chooseCandidate (target_version : Option String) (candidates_sorted : List Candidate) :
    Except ResolveError Candidate :=
  if truthy target_version then
    let t := target_version.getD ""
    match (candidates_sorted.filter (fun c => c.metadata.version == t)).head? with
    | some c => .ok c
    | none => .error (.noCandidates s!"Extension with version {t} not found")
  else
    match candidates_sorted.head? with
    | some c => .ok c
    | none => .error .indexOutOfRange

/-- `resolve_from_index` up to and including the selection of `chosen`:
index lookup, emptiness check, filter chain, second emptiness check, sort,
and selection. -/
def chosenStage [LinearOrder V] (env : Env V) (extension_name : String)
    (cur_version index_url target_version : Option String) (cli_ctx : Option CliCtx) :
    Except ResolveError Candidate :=
  let candidates := env.getIndexExtensions index_url cli_ctx extension_name
  if candidates.isEmpty then
    .error (.noCandidates s!"No extension found with name \x27{extension_name}\x27")
  else
    match filterStage env cur_version target_version candidates with
    | .error e => .error e
    | .ok candidates =>
      if candidates.isEmpty then
        .error (.noCandidates "No suitable extensions found.")
      else
        match sortCandidates env candidates with
        | .error e => .error e
        | .ok candidates_sorted => chooseCandidate target_version candidates_sorted

/-- `resolve_from_index` up to and including the `if not download_url` guard:
returns the raw (pre-mirror) download URL together with the digest. -/
def selectDownload [LinearOrder V] (env : Env V) (extension_name : String)
    (cur_version index_url target_version : Option String) (cli_ctx : Option CliCtx) :
    Except ResolveError (String × Option String) :=
  match chosenStage env extension_name cur_version index_url target_version cli_ctx with
  | .error e => .error e
  | .ok chosen =>
    if !truthy chosen.downloadUrl then
      .error (.noCandidates "No download url found.")
    else
      .ok (chosen.downloadUrl.getD "", chosen.sha256Digest)

/-- Embeds `posixpath.join` for two components (separator `/`): an absolute
second component replaces the path; otherwise the component is appended,
inserting the separator unless the path is empty or already ends with it.
(Starting and ending with the one-character separator are phrased over the
character list of the string.) -/
def posixpathJoin (path b : String) : String :=
  if b.data.head? = some '/' then b
  else if path = "" ∨ path.data.getLast? = some '/' then path ++ b
  else path ++ "/" ++ b

/-- The `whl_name` of the mirror rewrite, `download_url.split("/")[-1]`: the
characters after the last separator (the whole string when it contains none),
computed by a fold that restarts its accumulator at each separator. -/
def whlName (download_url : String) : String :=
  ⟨download_url.data.foldl (fun acc c => if c = '/' then [] else acc ++ [c]) []⟩

/-- The `azmirror_endpoint` local of `resolve_from_index`: the endpoint value
when `cli_ctx` is given and the endpoint is set, else `None`. -/
def azmirrorEndpointOf : Option CliCtx → Option String
  | none => none
  | some ctx =>
    if ctx.hasAzmirrorStorageEndpointSet then some ctx.azmirrorStorageAccountResourceId
    else none

/-- The `config_index_url` local: the configured extension index-url override
when `cli_ctx` is given, else `None`. -/
def configIndexUrlOf : Option CliCtx → Option String
  | none => none
  | some ctx => ctx.extensionIndexUrlConfig

/-- The mirror rewrite tail of `resolve_from_index`: when a truthy mirror
endpoint is declared and no truthy index-url override is configured, the URL
becomes `posixpath.join(endpoint, "extensions", whl_name)` where `whl_name`
is the final `/`-separated segment of the original URL. -/
def rewriteDownloadUrl (cli_ctx : Option CliCtx) (download_url : String) : String :=
  if truthy (azmirrorEndpointOf cli_ctx) && !truthy (configIndexUrlOf cli_ctx) then
    posixpathJoin (posixpathJoin ((azmirrorEndpointOf cli_ctx).getD "") "extensions")
      (whlName download_url)
  else download_url

/-- Embeds `resolve_from_index`: the selection pipeline followed by the mirror
URL rewrite on the success path. -/
def resolve_from_index [LinearOrder V] (env : Env V) (extension_name : String)
    (cur_version index_url target_version : Option String) (cli_ctx : Option CliCtx) :
    Except ResolveError (String × Option String) :=
  match selectDownload env extension_name cur_version index_url target_version cli_ctx with
  | .error e => .error e
  | .ok r => .ok (rewriteDownloadUrl cli_ctx r.1, r.2)

/-- The nested read
`metadata.extensions[python.details].project_urls.Home` as one `Option`
composition: `none` exactly when some link of the path is missing (a Python
`KeyError`). -/
def homeOf (c : Candidate) : Option String :=
  ((c.metadata.extensions.bind MetadataExtensions.python_details).bind
    PythonDetails.project_urls).bind ProjectUrls.Home

/-- Embeds `resolve_project_url_from_index`: no filtering, ranking or
selection; only the first candidate (index order) is read, and a missing link
of the nested metadata path is the `KeyError` rethrown as `CLIError`. -/
def resolve_project_url_from_index (env : Env V) (extension_name : String) :
    Except ResolveError String :=
  match env.getIndexExtensions none none extension_name with
  | [] => .error (.noCandidates s!"No extension found with name \x27{extension_name}\x27")
  | c :: _ =>
    match c.metadata.extensions with
    | none => .error (.cliError s!"Could not find project information for extension {extension_name}.")
    | some exts =>
      match exts.python_details with
      | none => .error (.cliError s!"Could not find project information for extension {extension_name}.")
      | some det =>
        match det.project_urls with
        | none => .error (.cliError s!"Could not find project information for extension {extension_name}.")
        | some urls =>
          match urls.Home with
          | none => .error (.cliError s!"Could not find project information for extension {extension_name}.")
          | some home => .ok home

/-- The four `NoExtensionCandidatesError` trigger conditions of
`resolve_from_index`, evaluated on the pipeline stages: empty candidate list
for the name; all candidates removed by the filter chain; a truthy target
version matched by no surviving candidate; a falsy download URL on the
selected candidate. -/
def noCandidatesTrigger [LinearOrder V] (env : Env V) (extension_name : String)
    (cur_version index_url target_version : Option String) (cli_ctx : Option CliCtx) : Bool :=
  let candidates := env.getIndexExtensions index_url cli_ctx extension_name
  candidates.isEmpty
  || (match filterStage env cur_version target_version candidates with
      | .ok [] => true
      | _ => false)
  || (truthy target_version &&
      match filterStage env cur_version target_version candidates with
      | .ok filtered =>
        (match sortCandidates env filtered with
         | .ok sorted =>
           (sorted.filter (fun c => c.metadata.version == target_version.getD "")).isEmpty
         | .error _ => false)
      | .error _ => false)
  || (match chosenStage env extension_name cur_version index_url target_version cli_ctx with
      | .ok chosen => !truthy chosen.downloadUrl
      | .error _ => false)

/-! ### Fixtures for concrete witnesses -/

/-- Metadata with only a version string. -/
def wMd (v : String) : Metadata := ⟨v, none⟩

/-- A universal wheel, version 1. -/
def wA : Candidate := ⟨"a.whl", wMd "1", some "http://h/d/a.whl", some "da"⟩

/-- A platform-specific wheel, version 2. -/
def wB : Candidate := ⟨"plat.whl", wMd "2", some "http://h/d/b.whl", some "db"⟩

/-- A universal wheel, version 3. -/
def wC : Candidate := ⟨"c.whl", wMd "3", some "http://h/d/c.whl", some "dc"⟩

/-- A universal wheel whose version string does not parse. -/
def wBad : Candidate := ⟨"x.whl", wMd "oops", some "http://h/d/x.whl", none⟩

/-- A universal wheel whose download URL is the empty string. -/
def wNoUrl : Candidate := ⟨"n.whl", wMd "1", some "", none⟩

/-- A universal wheel without a digest. -/
def wNoDigest : Candidate := ⟨"g.whl", wMd "1", some "http://h/d/g.whl", none⟩

/-- A candidate carrying the nested home-page metadata. -/
def wHome : Candidate :=
  ⟨"h.whl", ⟨"1", some ⟨some ⟨some ⟨some "https://home.example"⟩⟩⟩⟩, none, none⟩

/-- A concrete environment over `Nat` versions: `plat.whl` is the only
platform-specific filename, version `9` is the only CLI-incompatible version,
the version strings `1`, `2`, `3` and `9` parse (and nothing else does), and
the index maps a few fixed names to fixed candidate lists. -/
def wEnv : Env Nat where
  wheelAbi f := if f = "plat.whl" then some "cp36" else some "none"
  wheelPlat f := if f = "plat.whl" then some "win_amd64" else some "any"
  extCompatWithCli m := m.version != "9"
  parseVersion s :=
    if s = "1" then some 1 else if s = "2" then some 2
    else if s = "3" then some 3 else if s = "9" then some 9 else none
  getIndexExtensions _ _ name :=
    if name = "myext" then [wA, wB, wC]
    else if name = "badver" then [wBad]
    else if name = "nourl" then [wNoUrl]
    else if name = "nodigest" then [wNoDigest]
    else if name = "home" then [wHome]
    else []

/-- A host context with a mirror endpoint and no index-url override. -/
def wCtx : CliCtx := ⟨true, "https://mirror.example", none⟩

/-! ### Helper lemmas about the filter chain -/

theorem runFilters_nil (candidates : List Candidate) : runFilters [] candidates = .ok candidates :=
  rfl

theorem runFilters_cons (f : Option (Candidate → Except ResolveError Bool))
    (fs : List (Option (Candidate → Except ResolveError Bool))) (candidates : List Candidate) :
    runFilters (f :: fs) candidates =
      match applyFilterEntry f candidates with
      | .error e => .error e
      | .ok candidates => runFilters fs candidates :=
  rfl

theorem filterExcept_pure (f : Candidate → Bool) (cs : List Candidate) :
    filterExcept (fun c => .ok (f c)) cs = .ok (cs.filter f) := by
  induction cs with
  | nil => rfl
  | cons c cs ih =>
    simp only [filterExcept, ih]
    cases h : f c <;> simp [List.filter_cons, h]

theorem applyFilterEntry_pure (f : Candidate → Bool) (cs : List Candidate) :
    applyFilterEntry (pureFilter f) cs = .ok (cs.filter f) := by
  simp [applyFilterEntry, pureFilter, filterExcept_pure]

/-- Unfolding of the filter stage: the universality filter feeds the
compatibility filter, whose output feeds the (optional) floor filter. -/
theorem filterStage_eq [LinearOrder V] (env : Env V) (cur_version target_version : Option String)
    (candidates : List Candidate) :
    filterStage env cur_version target_version candidates =
      if truthy target_version then
        .ok ((candidates.filter (_is_not_platform_specific env)).filter
          (_is_compatible_with_cli_version env))
      else
        match _is_greater_than_cur_version env cur_version with
        | .error e => .error e
        | .ok floorFilter =>
          applyFilterEntry floorFilter
            ((candidates.filter (_is_not_platform_specific env)).filter
              (_is_compatible_with_cli_version env)) := by
  cases ht : truthy target_version with
  | true =>
    simp only [filterStage, buildFilters, ht, if_true, runFilters_cons, applyFilterEntry_pure,
      runFilters_nil]
  | false =>
    cases hg : _is_greater_than_cur_version env cur_version with
    | error e => simp only [filterStage, buildFilters, ht, Bool.false_eq_true, if_false, hg]
    | ok ff =>
      simp only [filterStage, buildFilters, ht, Bool.false_eq_true, if_false, hg,
        List.cons_append, List.nil_append, runFilters_cons, applyFilterEntry_pure]
      cases hA : applyFilterEntry ff
          ((candidates.filter (_is_not_platform_specific env)).filter
            (_is_compatible_with_cli_version env)) <;> simp [hA, runFilters_nil]

theorem filterStage_truthy_target [LinearOrder V] (env : Env V)
    (cur_version target_version : Option String) (candidates : List Candidate)
    (ht : truthy target_version = true) :
    filterStage env cur_version target_version candidates =
      .ok ((candidates.filter (_is_not_platform_specific env)).filter
        (_is_compatible_with_cli_version env)) := by
  rw [filterStage_eq, ht, if_pos rfl]

theorem _is_greater_error_kind [LinearOrder V] {env : Env V} {cur_version : Option String}
    {e : ResolveError} (h : _is_greater_than_cur_version env cur_version = .error e) :
    ∃ s, e = .versionParseFailure s := by
  unfold _is_greater_than_cur_version at h
  cases ht : truthy cur_version <;> rw [ht] at h <;> simp at h
  cases hp : env.parseVersion (cur_version.getD "") <;> rw [hp] at h <;> simp at h
  exact ⟨_, h.symm⟩

theorem floorFilterFn_error_kind [LinearOrder V] {env : Env V} {cv : V} {item : Candidate}
    {e : ResolveError} (h : floorFilterFn env cv item = .error e) :
    ∃ s, e = .versionParseFailure s := by
  unfold floorFilterFn at h
  cases hp : env.parseVersion item.metadata.version <;> rw [hp] at h <;> simp at h
  exact ⟨_, h.symm⟩

theorem filterExcept_ok_mem {f : Candidate → Except ResolveError Bool}
    {cs out : List Candidate} (h : filterExcept f cs = .ok out) :
    ∀ c ∈ out, c ∈ cs ∧ f c = .ok true := by
  induction cs generalizing out with
  | nil =>
    simp only [filterExcept] at h
    cases h
    simp
  | cons a cs ih =>
    simp only [filterExcept] at h
    cases hf : f a with
    | error e => rw [hf] at h; exact absurd h (by simp)
    | ok keep =>
      rw [hf] at h
      cases hr : filterExcept f cs with
      | error e => rw [hr] at h; exact absurd h (by simp)
      | ok rest =>
        rw [hr] at h
        cases h
        intro c hc
        cases keep with
        | false =>
          simp only [Bool.false_eq_true, if_false] at hc
          rcases ih hr c hc with ⟨hmem, hfc⟩
          exact ⟨List.mem_cons_of_mem _ hmem, hfc⟩
        | true =>
          simp only [if_pos] at hc
          rcases List.mem_cons.mp hc with hEq | hmem
          · exact ⟨by simp [hEq], hEq ▸ hf⟩
          · rcases ih hr c hmem with ⟨hmem2, hfc⟩
            exact ⟨List.mem_cons_of_mem _ hmem2, hfc⟩

theorem filterExcept_error_of_mem {f : Candidate → Except ResolveError Bool}
    {cs : List Candidate} {c : Candidate} (hc : c ∈ cs) {e : ResolveError}
    (he : f c = .error e) : ∃ e2, filterExcept f cs = .error e2 := by
  induction cs with
  | nil => cases hc
  | cons a cs ih =>
    simp only [filterExcept]
    cases hf : f a with
    | error e3 => exact ⟨e3, rfl⟩
    | ok keep =>
      rcases List.mem_cons.mp hc with hEq | hmem
      · rw [hEq, hf] at he; exact absurd he (by simp)
      · rcases ih hmem with ⟨e2, h2⟩
        rw [h2]
        exact ⟨e2, rfl⟩

theorem filterExcept_error_kind {f : Candidate → Except ResolveError Bool}
    {cs : List Candidate} {e : ResolveError}
    (hkind : ∀ x e2, f x = .error e2 → ∃ s, e2 = .versionParseFailure s)
    (h : filterExcept f cs = .error e) : ∃ s, e = .versionParseFailure s := by
  induction cs generalizing e with
  | nil => simp [filterExcept] at h
  | cons a cs ih =>
    simp only [filterExcept] at h
    cases hf : f a with
    | error e3 =>
      rw [hf] at h
      cases h
      exact hkind a e hf
    | ok keep =>
      rw [hf] at h
      cases hr : filterExcept f cs with
      | error e3 =>
        rw [hr] at h
        cases h
        exact ih hr
      | ok rest => rw [hr] at h; exact absurd h (by simp)

/-! ### Helper lemmas about the ranking stage -/

theorem taggedVersions_ok {env : Env V} {cs : List Candidate} {ts : List (Candidate × V)}
    (h : taggedVersions env cs = .ok ts) :
    ts.map Prod.fst = cs ∧ ∀ p ∈ ts, env.parseVersion p.1.metadata.version = some p.2 := by
  induction cs generalizing ts with
  | nil =>
    simp only [taggedVersions] at h
    cases h
    simp
  | cons c cs ih =>
    simp only [taggedVersions] at h
    cases hp : env.parseVersion c.metadata.version with
    | none => rw [hp] at h; exact absurd h (by simp)
    | some v =>
      rw [hp] at h
      cases hr : taggedVersions env cs with
      | error e => rw [hr] at h; exact absurd h (by simp)
      | ok rest =>
        rw [hr] at h
        cases h
        rcases ih hr with ⟨hmap, hmem⟩
        refine ⟨by simp [hmap], ?_⟩
        intro p hpmem
        rcases List.mem_cons.mp hpmem with hEq | hmem2
        · rw [hEq]; exact hp
        · exact hmem p hmem2

theorem taggedVersions_error_kind {env : Env V} {cs : List Candidate} {e : ResolveError}
    (h : taggedVersions env cs = .error e) : ∃ s, e = .versionParseFailure s := by
  induction cs generalizing e with
  | nil => simp [taggedVersions] at h
  | cons c cs ih =>
    simp only [taggedVersions] at h
    cases hp : env.parseVersion c.metadata.version with
    | none =>
      rw [hp] at h
      cases h
      exact ⟨_, rfl⟩
    | some v =>
      rw [hp] at h
      cases hr : taggedVersions env cs with
      | error e2 =>
        rw [hr] at h
        cases h
        exact ih hr
      | ok rest => rw [hr] at h; exact absurd h (by simp)

theorem taggedVersions_error_of_mem {env : Env V} {cs : List Candidate} {c : Candidate}
    (hc : c ∈ cs) (hbad : env.parseVersion c.metadata.version = none) :
    ∃ s, taggedVersions env cs = .error (.versionParseFailure s) := by
  induction cs with
  | nil => cases hc
  | cons a cs ih =>
    simp only [taggedVersions]
    cases hp : env.parseVersion a.metadata.version with
    | none => exact ⟨_, rfl⟩
    | some v =>
      rcases List.mem_cons.mp hc with hEq | hmem
      · rw [hEq, hp] at hbad; cases hbad
      · rcases ih hmem with ⟨s, h2⟩
        rw [h2]
        exact ⟨s, rfl⟩

theorem sortCandidates_ok_perm [LinearOrder V] {env : Env V} {cs s : List Candidate}
    (h : sortCandidates env cs = .ok s) : s.Perm cs := by
  simp only [sortCandidates] at h
  cases ht : taggedVersions env cs with
  | error e => rw [ht] at h; exact absurd h (by simp)
  | ok ts =>
    rw [ht] at h
    cases h
    rcases taggedVersions_ok ht with ⟨hmap, -⟩
    exact hmap ▸ ((List.perm_insertionSort rankRel ts).map Prod.fst)

theorem sortCandidates_error_kind [LinearOrder V] {env : Env V} {cs : List Candidate}
    {e : ResolveError} (h : sortCandidates env cs = .error e) :
    ∃ s, e = .versionParseFailure s := by
  simp only [sortCandidates] at h
  cases ht : taggedVersions env cs with
  | error e2 =>
    rw [ht] at h
    cases h
    exact taggedVersions_error_kind ht
  | ok ts => rw [ht] at h; exact absurd h (by simp)

theorem sortCandidates_error_of_mem [LinearOrder V] {env : Env V} {cs : List Candidate}
    {c : Candidate} (hc : c ∈ cs) (hbad : env.parseVersion c.metadata.version = none) :
    ∃ s, sortCandidates env cs = .error (.versionParseFailure s) := by
  rcases taggedVersions_error_of_mem hc hbad with ⟨s, h⟩
  exact ⟨s, by simp [sortCandidates, h]⟩

theorem sortCandidates_ok_pairwise [LinearOrder V] {env : Env V} {cs s : List Candidate}
    (h : sortCandidates env cs = .ok s) :
    s.Pairwise (fun a b => ∀ va vb, env.parseVersion a.metadata.version = some va →
      env.parseVersion b.metadata.version = some vb → vb ≤ va) := by
  simp only [sortCandidates] at h
  cases ht : taggedVersions env cs with
  | error e => rw [ht] at h; exact absurd h (by simp)
  | ok ts =>
    rw [ht] at h
    cases h
    rcases taggedVersions_ok ht with ⟨-, hmem⟩
    have hmemS : ∀ p ∈ ts.insertionSort rankRel,
        env.parseVersion p.1.metadata.version = some p.2 :=
      fun p hp => hmem p ((List.mem_insertionSort rankRel).mp hp)
    have hsorted := List.sorted_insertionSort rankRel ts
    rw [List.pairwise_map]
    refine hsorted.imp_of_mem ?_
    intro a b ha hb hle va vb hva hvb
    have hva2 := hmemS a ha
    have hvb2 := hmemS b hb
    rw [hva] at hva2
    rw [hvb] at hvb2
    cases Option.some.inj hva2
    cases Option.some.inj hvb2
    exact hle

theorem sortCandidates_ok_stable [LinearOrder V] {env : Env V} {cs s : List Candidate}
    (h : sortCandidates env cs = .ok s) (v : V) :
    s.filter (fun c => decide (env.parseVersion c.metadata.version = some v)) =
      cs.filter (fun c => decide (env.parseVersion c.metadata.version = some v)) := by
  simp only [sortCandidates] at h
  cases ht : taggedVersions env cs with
  | error e => rw [ht] at h; exact absurd h (by simp)
  | ok ts =>
    rw [ht] at h
    cases h
    rcases taggedVersions_ok ht with ⟨hmap, hmem⟩
    have hmemS : ∀ p ∈ ts.insertionSort rankRel,
        env.parseVersion p.1.metadata.version = some p.2 :=
      fun p hp => hmem p ((List.mem_insertionSort rankRel).mp hp)
    -- the key-level filter and the candidate-level filter agree on both lists
    have hcongrS : (ts.insertionSort rankRel).filter
        ((fun c => decide (env.parseVersion c.metadata.version = some v)) ∘ Prod.fst) =
        (ts.insertionSort rankRel).filter (fun p => decide (p.2 = v)) := by
      refine List.filter_congr ?_
      intro p hp
      simp [Function.comp, hmemS p hp]
    have hcongrT : ts.filter
        ((fun c => decide (env.parseVersion c.metadata.version = some v)) ∘ Prod.fst) =
        ts.filter (fun p => decide (p.2 = v)) := by
      refine List.filter_congr ?_
      intro p hp
      simp [Function.comp, hmem p hp]
    -- equal-key entries are pairwise tied, so stability keeps them a sublist
    have hpw : (ts.filter (fun p => decide (p.2 = v))).Pairwise rankRel := by
      rw [List.pairwise_iff_forall_sublist]
      intro a b hsub
      have ha : a ∈ ts.filter (fun p => decide (p.2 = v)) := hsub.subset (by simp)
      have hb : b ∈ ts.filter (fun p => decide (p.2 = v)) := hsub.subset (by simp)
      have ha2 : a.2 = v := by simpa using (List.mem_filter.mp ha).2
      have hb2 : b.2 = v := by simpa using (List.mem_filter.mp hb).2
      simp [rankRel, ha2, hb2]
    have hsub : List.Sublist (ts.filter (fun p => decide (p.2 = v)))
        (ts.insertionSort rankRel) :=
      List.sublist_insertionSort hpw (List.filter_sublist ts)
    have hsub2 : List.Sublist (ts.filter (fun p => decide (p.2 = v)))
        ((ts.insertionSort rankRel).filter (fun p => decide (p.2 = v))) := by
      have := hsub.filter (fun p => decide (p.2 = v))
      rwa [List.filter_filter, (by
        refine List.filter_congr ?_
        intro p hp
        cases hd : decide (p.2 = v) <;> simp [hd] : ts.filter
          (fun p => decide (p.2 = v) && decide (p.2 = v)) =
          ts.filter (fun p => decide (p.2 = v)))] at this
    have hperm : List.Perm ((ts.insertionSort rankRel).filter (fun p => decide (p.2 = v)))
        (ts.filter (fun p => decide (p.2 = v))) :=
      (List.perm_insertionSort rankRel ts).filter (fun p => decide (p.2 = v))
    have hEqF : ts.filter (fun p => decide (p.2 = v)) =
        (ts.insertionSort rankRel).filter (fun p => decide (p.2 = v)) :=
      hsub2.eq_of_length hperm.length_eq.symm
    calc ((ts.insertionSort rankRel).map Prod.fst).filter
          (fun c => decide (env.parseVersion c.metadata.version = some v))
        = ((ts.insertionSort rankRel).filter
            ((fun c => decide (env.parseVersion c.metadata.version = some v)) ∘ Prod.fst)).map
            Prod.fst := List.filter_map Prod.fst (ts.insertionSort rankRel)
      _ = ((ts.insertionSort rankRel).filter (fun p => decide (p.2 = v))).map Prod.fst := by
            rw [hcongrS]
      _ = (ts.filter (fun p => decide (p.2 = v))).map Prod.fst := by rw [hEqF]
      _ = (ts.filter
            ((fun c => decide (env.parseVersion c.metadata.version = some v)) ∘ Prod.fst)).map
            Prod.fst := by rw [hcongrT]
      _ = (ts.map Prod.fst).filter
            (fun c => decide (env.parseVersion c.metadata.version = some v)) :=
            (List.filter_map Prod.fst ts).symm
      _ = cs.filter (fun c => decide (env.parseVersion c.metadata.version = some v)) := by
            rw [hmap]

/-! ### Helper lemmas about the floor filter, selection and the pipeline -/

theorem _is_greater_falsy [LinearOrder V] (env : Env V) {cur_version : Option String}
    (hcur : truthy cur_version = false) :
    _is_greater_than_cur_version env cur_version = .ok none := by
  simp [_is_greater_than_cur_version, hcur]

theorem _is_greater_truthy_some [LinearOrder V] (env : Env V) {cur_version : Option String}
    {cv : V} (hcur : truthy cur_version = true)
    (hp : env.parseVersion (cur_version.getD "") = some cv) :
    _is_greater_than_cur_version env cur_version = .ok (some (floorFilterFn env cv)) := by
  simp [_is_greater_than_cur_version, hcur, hp]

theorem _is_greater_truthy_none [LinearOrder V] (env : Env V) {cur_version : Option String}
    (hcur : truthy cur_version = true)
    (hp : env.parseVersion (cur_version.getD "") = none) :
    _is_greater_than_cur_version env cur_version =
      .error (.versionParseFailure (cur_version.getD "")) := by
  simp [_is_greater_than_cur_version, hcur, hp]

theorem chooseCandidate_falsy {target_version : Option String}
    (ht : truthy target_version = false) (s : List Candidate) :
    chooseCandidate target_version s =
      match s.head? with
      | some c => .ok c
      | none => .error .indexOutOfRange := by
  simp [chooseCandidate, ht]

theorem chooseCandidate_truthy {tv : String} (htv : tv ≠ "") (s : List Candidate) :
    chooseCandidate (some tv) s =
      match s.find? (fun c => c.metadata.version == tv) with
      | some c => .ok c
      | none => .error (.noCandidates s!"Extension with version {tv} not found") := by
  have ht : truthy (some tv) = true := by simpa [truthy] using htv
  simp only [chooseCandidate, ht, if_true, Option.getD_some, List.filter_head?]

theorem resolve_of_select_error [LinearOrder V] {env : Env V} {extension_name : String}
    {cur_version index_url target_version : Option String} {cli_ctx : Option CliCtx}
    {e : ResolveError}
    (h : selectDownload env extension_name cur_version index_url target_version cli_ctx =
      .error e) :
    resolve_from_index env extension_name cur_version index_url target_version cli_ctx =
      .error e := by
  simp [resolve_from_index, h]

theorem resolve_of_select_ok [LinearOrder V] {env : Env V} {extension_name : String}
    {cur_version index_url target_version : Option String} {cli_ctx : Option CliCtx}
    {b : String} {d : Option String}
    (h : selectDownload env extension_name cur_version index_url target_version cli_ctx =
      .ok (b, d)) :
    resolve_from_index env extension_name cur_version index_url target_version cli_ctx =
      .ok (rewriteDownloadUrl cli_ctx b, d) := by
  simp [resolve_from_index, h]

theorem resolve_ok_inv [LinearOrder V] {env : Env V} {extension_name : String}
    {cur_version index_url target_version : Option String} {cli_ctx : Option CliCtx}
    {r : String} {d : Option String}
    (h : resolve_from_index env extension_name cur_version index_url target_version cli_ctx =
      .ok (r, d)) :
    ∃ b, selectDownload env extension_name cur_version index_url target_version cli_ctx =
      .ok (b, d) ∧ r = rewriteDownloadUrl cli_ctx b := by
  unfold resolve_from_index at h
  cases hs : selectDownload env extension_name cur_version index_url target_version cli_ctx with
  | error e => rw [hs] at h; exact absurd h (by simp)
  | ok p =>
    rw [hs] at h
    have hp := Except.ok.inj h
    refine ⟨p.1, ?_, (congrArg Prod.fst hp).symm⟩
    have hd : p.2 = d := congrArg Prod.snd hp
    rw [← hd]

theorem select_of_chosen_ok [LinearOrder V] {env : Env V} {extension_name : String}
    {cur_version index_url target_version : Option String} {cli_ctx : Option CliCtx}
    {chosen : Candidate}
    (h : chosenStage env extension_name cur_version index_url target_version cli_ctx =
      .ok chosen) :
    selectDownload env extension_name cur_version index_url target_version cli_ctx =
      (if !truthy chosen.downloadUrl then
        .error (.noCandidates "No download url found.")
      else
        .ok (chosen.downloadUrl.getD "", chosen.sha256Digest)) := by
  simp only [selectDownload, h]

theorem select_of_chosen_error [LinearOrder V] {env : Env V} {extension_name : String}
    {cur_version index_url target_version : Option String} {cli_ctx : Option CliCtx}
    {e : ResolveError}
    (h : chosenStage env extension_name cur_version index_url target_version cli_ctx =
      .error e) :
    selectDownload env extension_name cur_version index_url target_version cli_ctx =
      .error e := by
  simp only [selectDownload, h]

theorem chosenStage_of_stages [LinearOrder V] {env : Env V} {extension_name : String}
    {cur_version index_url target_version : Option String} {cli_ctx : Option CliCtx}
    {fcs sorted : List Candidate}
    (hne : (env.getIndexExtensions index_url cli_ctx extension_name).isEmpty = false)
    (hf : filterStage env cur_version target_version
      (env.getIndexExtensions index_url cli_ctx extension_name) = .ok fcs)
    (hfne : fcs.isEmpty = false)
    (hs : sortCandidates env fcs = .ok sorted) :
    chosenStage env extension_name cur_version index_url target_version cli_ctx =
      chooseCandidate target_version sorted := by
  simp only [chosenStage, hne, Bool.false_eq_true, if_false, hf, hfne, hs]

theorem chosenStage_of_sort_error [LinearOrder V] {env : Env V} {extension_name : String}
    {cur_version index_url target_version : Option String} {cli_ctx : Option CliCtx}
    {fcs : List Candidate} {e : ResolveError}
    (hne : (env.getIndexExtensions index_url cli_ctx extension_name).isEmpty = false)
    (hf : filterStage env cur_version target_version
      (env.getIndexExtensions index_url cli_ctx extension_name) = .ok fcs)
    (hfne : fcs.isEmpty = false)
    (hs : sortCandidates env fcs = .error e) :
    chosenStage env extension_name cur_version index_url target_version cli_ctx = .error e := by
  simp only [chosenStage, hne, Bool.false_eq_true, if_false, hf, hfne, hs]

theorem chosenStage_of_filter_error [LinearOrder V] {env : Env V} {extension_name : String}
    {cur_version index_url target_version : Option String} {cli_ctx : Option CliCtx}
    {e : ResolveError}
    (hne : (env.getIndexExtensions index_url cli_ctx extension_name).isEmpty = false)
    (hf : filterStage env cur_version target_version
      (env.getIndexExtensions index_url cli_ctx extension_name) = .error e) :
    chosenStage env extension_name cur_version index_url target_version cli_ctx = .error e := by
  simp only [chosenStage, hne, Bool.false_eq_true, if_false, hf]

theorem chosenStage_of_filter_empty [LinearOrder V] {env : Env V} {extension_name : String}
    {cur_version index_url target_version : Option String} {cli_ctx : Option CliCtx}
    (hne : (env.getIndexExtensions index_url cli_ctx extension_name).isEmpty = false)
    (hf : filterStage env cur_version target_version
      (env.getIndexExtensions index_url cli_ctx extension_name) = .ok []) :
    chosenStage env extension_name cur_version index_url target_version cli_ctx =
      .error (.noCandidates "No suitable extensions found.") := by
  simp only [chosenStage, hne, Bool.false_eq_true, if_false, hf, List.isEmpty_nil, if_true]

theorem chosenStage_of_empty [LinearOrder V] {env : Env V} {extension_name : String}
    {cur_version index_url target_version : Option String} {cli_ctx : Option CliCtx}
    (hne : (env.getIndexExtensions index_url cli_ctx extension_name).isEmpty = true) :
    chosenStage env extension_name cur_version index_url target_version cli_ctx =
      .error (.noCandidates s!"No extension found with name \x27{extension_name}\x27") := by
  simp only [chosenStage, hne, if_true]

theorem isEmpty_false_of_head?_some {α : Type} {l : List α} {c : α}
    (h : l.head? = some c) : l.isEmpty = false := by
  cases l with
  | nil => cases h
  | cons a t => rfl

theorem isEmpty_true_of_head?_none {α : Type} {l : List α} (h : l.head? = none) :
    l.isEmpty = true := by
  cases l with
  | nil => rfl
  | cons a t => cases h

theorem filterStage_error_kind [LinearOrder V] {env : Env V}
    {cur_version target_version : Option String} {cs : List Candidate} {e : ResolveError}
    (h : filterStage env cur_version target_version cs = .error e) :
    ∃ s, e = .versionParseFailure s := by
  rw [filterStage_eq] at h
  cases ht : truthy target_version with
  | true => rw [ht] at h; simp at h
  | false =>
    rw [ht] at h
    simp only [Bool.false_eq_true, if_false] at h
    cases hcur : truthy cur_version with
    | false =>
      rw [_is_greater_falsy env hcur] at h
      simp [applyFilterEntry] at h
    | true =>
      cases hp : env.parseVersion (cur_version.getD "") with
      | none =>
        rw [_is_greater_truthy_none env hcur hp] at h
        cases h
        exact ⟨_, rfl⟩
      | some cv =>
        rw [_is_greater_truthy_some env hcur hp] at h
        simp only [applyFilterEntry] at h
        exact filterExcept_error_kind (fun x e2 hx => floorFilterFn_error_kind hx) h

theorem chooseCandidate_truthy_none {target_version : Option String}
    (ht : truthy target_version = true) {s : List Candidate}
    (hfind : (s.filter (fun c => c.metadata.version == target_version.getD "")).head? = none) :
    ∃ m, chooseCandidate target_version s = .error (.noCandidates m) := by
  simp only [chooseCandidate, ht, if_true, hfind]
  exact ⟨_, rfl⟩

theorem chooseCandidate_truthy_some {target_version : Option String}
    (ht : truthy target_version = true) {s : List Candidate} {c : Candidate}
    (hfind : (s.filter (fun c => c.metadata.version == target_version.getD "")).head? = some c) :
    chooseCandidate target_version s = .ok c := by
  simp only [chooseCandidate, ht, if_true, hfind]

/-! ### Claim theorems -/

/-- C1: the filter stage of `resolve_from_index` applies exactly three filters
in the fixed order universality, host-compatibility, version-floor (the third
included only when `target_version` is absent), each filter consuming the
output of the previous filter; and no candidate surviving the universality filter
has a parsed platform tag other than `any` or a parsed ABI tag other than
`none`. -/
theorem C1_filter_chain [LinearOrder V] (env : Env V) (cur_version target_version : Option String)
    (candidates : List Candidate) :
    (filterStage env cur_version target_version candidates =
      if truthy target_version then
        .ok ((candidates.filter (_is_not_platform_specific env)).filter
          (_is_compatible_with_cli_version env))
      else
        match _is_greater_than_cur_version env cur_version with
        | .error e => .error e
        | .ok floorFilter =>
          applyFilterEntry floorFilter
            ((candidates.filter (_is_not_platform_specific env)).filter
              (_is_compatible_with_cli_version env)))
    ∧ ∀ c ∈ candidates.filter (_is_not_platform_specific env),
        env.wheelPlat c.filename = some "any" ∧ env.wheelAbi c.filename = some "none" := by
  refine ⟨filterStage_eq env cur_version target_version candidates, ?_⟩
  intro c hc
  have h2 := (List.mem_filter.mp hc).2
  unfold _is_not_platform_specific at h2
  rw [Bool.and_eq_true] at h2
  exact ⟨beq_iff_eq.mp h2.2, beq_iff_eq.mp h2.1⟩

/-- C1 witness: the universal wheel `wA` survives the universality filter on a
concrete index and indeed parses to platform `any`, ABI `none`. -/
theorem C1_filter_chain_witness :
    wEnv.wheelPlat wA.filename = some "any" ∧ wEnv.wheelAbi wA.filename = some "none" :=
  (C1_filter_chain wEnv (some "1") none [wA, wB, wC]).2 wA (by decide)

/-- C2: when `target_version` is absent, every candidate surviving the filter
chain has parsed version strictly greater than the parsed `cur_version` (when
one is present), and when `cur_version` is absent the version-floor stage
admits every candidate surviving the first two filters. -/
theorem C2_version_floor [LinearOrder V] (env : Env V) (cur_version target_version : Option String)
    (candidates out : List Candidate) (htarget : truthy target_version = false)
    (hrun : filterStage env cur_version target_version candidates = .ok out) :
    (truthy cur_version = true →
      ∃ cv, env.parseVersion (cur_version.getD "") = some cv ∧
        ∀ c ∈ out, ∃ v, env.parseVersion c.metadata.version = some v ∧ cv < v)
    ∧ (truthy cur_version = false →
      out = (candidates.filter (_is_not_platform_specific env)).filter
        (_is_compatible_with_cli_version env)) := by
  rw [filterStage_eq, htarget] at hrun
  simp only [Bool.false_eq_true, if_false] at hrun
  cases hcur : truthy cur_version with
  | false =>
    refine ⟨fun h => absurd h (by simp [hcur]), fun _ => ?_⟩
    rw [_is_greater_falsy env hcur] at hrun
    simp only [applyFilterEntry] at hrun
    exact (Except.ok.inj hrun).symm
  | true =>
    refine ⟨fun _ => ?_, fun h => absurd h (by simp [hcur])⟩
    cases hp : env.parseVersion (cur_version.getD "") with
    | none =>
      rw [_is_greater_truthy_none env hcur hp] at hrun
      exact absurd hrun (by simp)
    | some cv =>
      rw [_is_greater_truthy_some env hcur hp] at hrun
      simp only [applyFilterEntry] at hrun
      refine ⟨cv, rfl, ?_⟩
      intro c hc
      have hfc := (filterExcept_ok_mem hrun c hc).2
      unfold floorFilterFn at hfc
      cases hv : env.parseVersion c.metadata.version with
      | none => rw [hv] at hfc; exact absurd hfc (by simp)
      | some v =>
        rw [hv] at hfc
        exact ⟨v, rfl, of_decide_eq_true (Except.ok.inj hfc)⟩

/-- C2 witness: with current version `1` on a concrete index, the only
survivor has parsed version strictly above the parsed threshold. -/
theorem C2_version_floor_witness :
    ∃ cv, wEnv.parseVersion ((some "1").getD "") = some cv ∧
      ∀ c ∈ [wC], ∃ v, wEnv.parseVersion c.metadata.version = some v ∧ cv < v :=
  (C2_version_floor wEnv (some "1") none [wA, wB, wC] [wC] (by decide) (by rfl)).1 (by decide)

/-- C3: with a truthy `target_version`, the version-floor filter is not
applied even when `cur_version` is supplied (the whole resolution is
independent of `cur_version`), and the selection step picks the first
candidate in ranked order whose raw version string equals the target exactly,
failing with the dedicated `NoCandidates` message when none matches. -/
theorem C3_target_exact [LinearOrder V] (env : Env V) (extension_name : String)
    (index_url : Option String) (cli_ctx : Option CliCtx) (t : String) (ht : t ≠ "") :
    (∀ cur1 cur2 : Option String,
      resolve_from_index env extension_name cur1 index_url (some t) cli_ctx =
        resolve_from_index env extension_name cur2 index_url (some t) cli_ctx)
    ∧ (∀ candidates_sorted : List Candidate,
        chooseCandidate (some t) candidates_sorted =
          match candidates_sorted.find? (fun c => c.metadata.version == t) with
          | some c => .ok c
          | none => .error (.noCandidates s!"Extension with version {t} not found")) := by
  have htv : truthy (some t) = true := by simpa [truthy] using ht
  constructor
  · intro cur1 cur2
    have hF : ∀ (cur : Option String) (cs : List Candidate),
        filterStage env cur (some t) cs =
          .ok ((cs.filter (_is_not_platform_specific env)).filter
            (_is_compatible_with_cli_version env)) :=
      fun cur cs => filterStage_truthy_target env cur (some t) cs htv
    simp only [resolve_from_index, selectDownload, chosenStage, hF]
  · exact chooseCandidate_truthy ht

/-- C3 witness: giving and omitting `cur_version` yield the same resolution
when a target version is requested. -/
theorem C3_target_exact_witness :
    resolve_from_index wEnv "myext" (some "3") none (some "1") none =
      resolve_from_index wEnv "myext" none none (some "1") none :=
  (C3_target_exact wEnv "myext" none none "1" (by decide)).1 (some "3") none

/-- C4: the ranking step returns a permutation of its input that is sorted in
descending order of parsed version, candidates with equal parsed versions
retain their relative input order, and with a falsy `target_version` the
selection is the first element of the ranking. -/
theorem C4_ranking [LinearOrder V] (env : Env V) (candidates s : List Candidate)
    (hsort : sortCandidates env candidates = .ok s) :
    s.Perm candidates
    ∧ s.Pairwise (fun a b => ∀ va vb, env.parseVersion a.metadata.version = some va →
        env.parseVersion b.metadata.version = some vb → vb ≤ va)
    ∧ (∀ v : V, s.filter (fun c => decide (env.parseVersion c.metadata.version = some v)) =
        candidates.filter (fun c => decide (env.parseVersion c.metadata.version = some v)))
    ∧ (∀ target_version : Option String, truthy target_version = false →
        ∀ c, s.head? = some c → chooseCandidate target_version s = .ok c) := by
  refine ⟨sortCandidates_ok_perm hsort, sortCandidates_ok_pairwise hsort,
    sortCandidates_ok_stable hsort, ?_⟩
  intro t ht c hc
  rw [chooseCandidate_falsy ht, hc]

/-- C4 witness: a concrete ranking is a permutation of its input. -/
theorem C4_ranking_witness : List.Perm [wC, wA] [wA, wC] :=
  (C4_ranking wEnv [wA, wC] [wC, wA] (by rfl)).1

/-- C5: on every successful selection the mirror rewrite is applied if and
only if the host context declares a (truthy) mirror storage endpoint and no
(truthy) local index-url override is configured; when applied, the returned
URL is the endpoint joined with `extensions` and the basename of the original
download URL, the original directory path being discarded. -/
theorem C5_mirror_rewrite [LinearOrder V] (env : Env V) (extension_name : String)
    (cur_version index_url target_version : Option String) (cli_ctx : Option CliCtx)
    (b : String) (d : Option String)
    (hsel : selectDownload env extension_name cur_version index_url target_version cli_ctx =
      .ok (b, d)) :
    resolve_from_index env extension_name cur_version index_url target_version cli_ctx =
      .ok ((if truthy (azmirrorEndpointOf cli_ctx) && !truthy (configIndexUrlOf cli_ctx) then
        posixpathJoin (posixpathJoin ((azmirrorEndpointOf cli_ctx).getD "") "extensions")
          (whlName b)
      else b), d) := by
  simp [resolve_from_index, hsel, rewriteDownloadUrl]

/-- C5 witness: a concrete resolution against a mirror-declaring context
returns the rewritten URL. -/
theorem C5_mirror_rewrite_witness :
    resolve_from_index wEnv "myext" none none none (some wCtx) =
      .ok ("https://mirror.example/extensions/c.whl", some "dc") :=
  (C5_mirror_rewrite wEnv "myext" none none none (some wCtx) "http://h/d/c.whl" (some "dc")
    (by rfl)).trans (by rfl)

/-- C7: a candidate that survives the universality and compatibility filters
but has an unparseable version string makes the whole resolution abort with an
uncaught version-parse failure (never a `NoCandidates` failure), whatever the
remaining arguments are. -/
theorem C7_parse_failure_propagates [LinearOrder V] (env : Env V) (extension_name : String)
    (cur_version index_url target_version : Option String) (cli_ctx : Option CliCtx)
    (c : Candidate)
    (hmem : c ∈ ((env.getIndexExtensions index_url cli_ctx extension_name).filter
      (_is_not_platform_specific env)).filter (_is_compatible_with_cli_version env))
    (hbad : env.parseVersion c.metadata.version = none) :
    ∃ s, resolve_from_index env extension_name cur_version index_url target_version cli_ctx =
      .error (.versionParseFailure s) := by
  have hmem2 : c ∈ env.getIndexExtensions index_url cli_ctx extension_name :=
    (List.mem_filter.mp (List.mem_filter.mp hmem).1).1
  have hne : (env.getIndexExtensions index_url cli_ctx extension_name).isEmpty = false := by
    cases hcc : env.getIndexExtensions index_url cli_ctx extension_name with
    | nil => rw [hcc] at hmem2; cases hmem2
    | cons a l => rfl
  have hs2ne : (((env.getIndexExtensions index_url cli_ctx extension_name).filter
      (_is_not_platform_specific env)).filter (_is_compatible_with_cli_version env)).isEmpty =
      false := by
    cases hcc : ((env.getIndexExtensions index_url cli_ctx extension_name).filter
        (_is_not_platform_specific env)).filter (_is_compatible_with_cli_version env) with
    | nil => rw [hcc] at hmem; cases hmem
    | cons a l => rfl
  cases ht : truthy target_version with
  | true =>
    have hf := filterStage_truthy_target env cur_version target_version
      (env.getIndexExtensions index_url cli_ctx extension_name) ht
    rcases sortCandidates_error_of_mem hmem hbad with ⟨s, hsort⟩
    exact ⟨s, resolve_of_select_error (select_of_chosen_error
      (chosenStage_of_sort_error hne hf hs2ne hsort))⟩
  | false =>
    cases hcur : truthy cur_version with
    | false =>
      have hf : filterStage env cur_version target_version
          (env.getIndexExtensions index_url cli_ctx extension_name) =
          .ok (((env.getIndexExtensions index_url cli_ctx extension_name).filter
            (_is_not_platform_specific env)).filter (_is_compatible_with_cli_version env)) := by
        rw [filterStage_eq, ht]
        simp only [Bool.false_eq_true, if_false]
        rw [_is_greater_falsy env hcur]
        rfl
      rcases sortCandidates_error_of_mem hmem hbad with ⟨s, hsort⟩
      exact ⟨s, resolve_of_select_error (select_of_chosen_error
        (chosenStage_of_sort_error hne hf hs2ne hsort))⟩
    | true =>
      cases hp : env.parseVersion (cur_version.getD "") with
      | none =>
        have hf : filterStage env cur_version target_version
            (env.getIndexExtensions index_url cli_ctx extension_name) =
            .error (.versionParseFailure (cur_version.getD "")) := by
          rw [filterStage_eq, ht]
          simp only [Bool.false_eq_true, if_false]
          rw [_is_greater_truthy_none env hcur hp]
        exact ⟨_, resolve_of_select_error (select_of_chosen_error
          (chosenStage_of_filter_error hne hf))⟩
      | some cv =>
        have hfe : floorFilterFn env cv c = .error (.versionParseFailure c.metadata.version) := by
          simp [floorFilterFn, hbad]
        rcases filterExcept_error_of_mem hmem hfe with ⟨e2, h2⟩
        rcases filterExcept_error_kind (fun x e3 hx => floorFilterFn_error_kind hx) h2
          with ⟨s, hskind⟩
        have hf : filterStage env cur_version target_version
            (env.getIndexExtensions index_url cli_ctx extension_name) = .error e2 := by
          rw [filterStage_eq, ht]
          simp only [Bool.false_eq_true, if_false]
          rw [_is_greater_truthy_some env hcur hp]
          simpa [applyFilterEntry] using h2
        subst hskind
        exact ⟨s, resolve_of_select_error (select_of_chosen_error
          (chosenStage_of_filter_error hne hf))⟩

/-- C7 witness: the single surviving candidate of a concrete index has version
string `oops`, and resolution aborts with the parse failure. -/
theorem C7_parse_failure_propagates_witness :
    ∃ s, resolve_from_index wEnv "badver" none none none none =
      .error (.versionParseFailure s) :=
  C7_parse_failure_propagates wEnv "badver" none none none none wBad (by decide) (by rfl)

/-- C8: `resolve_project_url_from_index` applies no filtering, ranking or
selection: with an empty candidate list it fails with `NoCandidates`, and
otherwise its result is a function of the first candidate alone — the nested
home-page field when every link exists, a `CLIError` when any link of the
nested path is missing. -/
theorem C8_project_url (env : Env V) (extension_name : String) :
    (env.getIndexExtensions none none extension_name = [] →
      resolve_project_url_from_index env extension_name =
        .error (.noCandidates s!"No extension found with name \x27{extension_name}\x27"))
    ∧ (∀ c rest, env.getIndexExtensions none none extension_name = c :: rest →
      resolve_project_url_from_index env extension_name =
        match homeOf c with
        | some home => .ok home
        | none => .error (.cliError
            s!"Could not find project information for extension {extension_name}.")) := by
  constructor
  · intro h
    simp only [resolve_project_url_from_index, h]
  · intro c rest h
    obtain ⟨fn, ⟨ver, exts⟩, url, dig⟩ := c
    simp only [resolve_project_url_from_index, h, homeOf]
    cases exts with
    | none => rfl
    | some e1 =>
      obtain ⟨pd⟩ := e1
      cases pd with
      | none => rfl
      | some d1 =>
        obtain ⟨pu⟩ := d1
        cases pu with
        | none => rfl
        | some u1 =>
          obtain ⟨home⟩ := u1
          cases home with
          | none => rfl
          | some hp => rfl

/-- C8 witness: a concrete index entry with the full nested path yields its
home page. -/
theorem C8_project_url_witness :
    resolve_project_url_from_index wEnv "home" = .ok "https://home.example" :=
  ((C8_project_url wEnv "home").2 wHome [] (by rfl)).trans (by rfl)

/-- C9: the mirror rewrite decision never reads the `index_url` argument: with
a mirror endpoint declared and no config override, two calls differing only in
`index_url` both return mirror-rewritten URLs (each rewritten from its own
selected download URL). -/
theorem C9_mirror_url_independence [LinearOrder V] (env : Env V) (extension_name : String)
    (cur_version target_version : Option String) (ctx : CliCtx)
    (hmirror : truthy (azmirrorEndpointOf (some ctx)) = true)
    (hconfig : truthy (configIndexUrlOf (some ctx)) = false)
    (u1 u2 : Option String) (r1 r2 : String) (d1 d2 : Option String)
    (h1 : resolve_from_index env extension_name cur_version u1 target_version (some ctx) =
      .ok (r1, d1))
    (h2 : resolve_from_index env extension_name cur_version u2 target_version (some ctx) =
      .ok (r2, d2)) :
    (∃ b, selectDownload env extension_name cur_version u1 target_version (some ctx) =
        .ok (b, d1) ∧
      r1 = posixpathJoin (posixpathJoin ((azmirrorEndpointOf (some ctx)).getD "") "extensions")
        (whlName b))
    ∧ (∃ b, selectDownload env extension_name cur_version u2 target_version (some ctx) =
        .ok (b, d2) ∧
      r2 = posixpathJoin (posixpathJoin ((azmirrorEndpointOf (some ctx)).getD "") "extensions")
        (whlName b)) := by
  have hrw : ∀ b, rewriteDownloadUrl (some ctx) b =
      posixpathJoin (posixpathJoin ((azmirrorEndpointOf (some ctx)).getD "") "extensions")
        (whlName b) := by
    intro b
    simp [rewriteDownloadUrl, hmirror, hconfig]
  constructor
  · rcases resolve_ok_inv h1 with ⟨b, hb, hr⟩
    exact ⟨b, hb, hr.trans (hrw b)⟩
  · rcases resolve_ok_inv h2 with ⟨b, hb, hr⟩
    exact ⟨b, hb, hr.trans (hrw b)⟩

/-- C9 witness: a call with an explicit `index_url` argument still returns the
mirror-rewritten URL. -/
theorem C9_mirror_url_independence_witness :
    ∃ b, selectDownload wEnv "myext" none (some "http://other.example/index.json") none
        (some wCtx) = .ok (b, some "dc") ∧
      "https://mirror.example/extensions/c.whl" =
        posixpathJoin (posixpathJoin ((azmirrorEndpointOf (some wCtx)).getD "") "extensions")
          (whlName b) :=
  (C9_mirror_url_independence wEnv "myext" none none wCtx (by rfl) (by rfl)
    (some "http://other.example/index.json") none
    "https://mirror.example/extensions/c.whl" "https://mirror.example/extensions/c.whl"
    (some "dc") (some "dc") (by rfl) (by rfl)).1

/-- C10: a selected candidate whose download URL is falsy (absent or the empty
string) makes resolution fail with `NoCandidates` with the dedicated message,
while an absent `sha256Digest` does not cause failure: the result is then a
pair whose digest component is `none`. -/
theorem C10_falsy_download_url [LinearOrder V] (env : Env V) (extension_name : String)
    (cur_version index_url target_version : Option String) (cli_ctx : Option CliCtx)
    (chosen : Candidate)
    (hchosen : chosenStage env extension_name cur_version index_url target_version cli_ctx =
      .ok chosen) :
    (truthy chosen.downloadUrl = false →
      resolve_from_index env extension_name cur_version index_url target_version cli_ctx =
        .error (.noCandidates "No download url found."))
    ∧ (∀ url, chosen.downloadUrl = some url → url ≠ "" → chosen.sha256Digest = none →
      resolve_from_index env extension_name cur_version index_url target_version cli_ctx =
        .ok (rewriteDownloadUrl cli_ctx url, none)) := by
  constructor
  · intro hfalsy
    have hsel := select_of_chosen_ok hchosen
    rw [hfalsy] at hsel
    simp only [Bool.not_false, if_true] at hsel
    exact resolve_of_select_error hsel
  · intro url hurl hne2 hdig
    have htr : truthy chosen.downloadUrl = true := by
      rw [hurl]
      simpa [truthy] using hne2
    have hsel := select_of_chosen_ok hchosen
    rw [htr] at hsel
    simp only [Bool.not_true, Bool.false_eq_true, if_false] at hsel
    rw [hurl, hdig] at hsel
    exact resolve_of_select_ok hsel

/-- C10 witness: a concrete candidate whose download URL is the empty string
fails with the dedicated message. -/
theorem C10_falsy_download_url_witness :
    resolve_from_index wEnv "nourl" none none none none =
      .error (.noCandidates "No download url found.") :=
  (C10_falsy_download_url wEnv "nourl" none none none none wNoUrl (by rfl)).1 (by rfl)

/-- C6 counterexample: a concrete index whose only candidate is universal and
compatible but has an unparseable version string satisfies none of the four
`NoCandidates` trigger conditions, yet resolution does not return a pair — it
propagates the version-parse failure. -/
theorem C6_counterexample :
    noCandidatesTrigger wEnv "badver" none none none none = false ∧
    resolve_from_index wEnv "badver" none none none none =
      .error (.versionParseFailure "oops") :=
  ⟨by rfl, by rfl⟩

/-- C6 (amended): `resolve_from_index` fails with a `NoCandidates`-kind error
(the single `NoExtensionCandidatesError` type, distinguished only by message)
if and only if one of exactly four conditions holds — the extension name is
absent from the index or maps to an empty sequence, all candidates are removed
by the filter chain, a truthy target version is matched by no surviving
candidate, or the selected candidate has a falsy download URL; in every other
case it either returns a `(download_url, digest)` pair or propagates an
uncaught version-parse failure. -/
theorem C6_no_candidates [LinearOrder V] (env : Env V) (extension_name : String)
    (cur_version index_url target_version : Option String) (cli_ctx : Option CliCtx) :
    ((∃ m, resolve_from_index env extension_name cur_version index_url target_version cli_ctx =
        .error (.noCandidates m)) ↔
      noCandidatesTrigger env extension_name cur_version index_url target_version cli_ctx =
        true)
    ∧ ((∃ p, resolve_from_index env extension_name cur_version index_url target_version cli_ctx =
          .ok p)
      ∨ (∃ m, resolve_from_index env extension_name cur_version index_url target_version
          cli_ctx = .error (.noCandidates m))
      ∨ (∃ s, resolve_from_index env extension_name cur_version index_url target_version
          cli_ctx = .error (.versionParseFailure s))) := by
  cases hcs : (env.getIndexExtensions index_url cli_ctx extension_name).isEmpty with
  | true =>
    have hR : resolve_from_index env extension_name cur_version index_url target_version
        cli_ctx = .error (.noCandidates
          s!"No extension found with name \x27{extension_name}\x27") :=
      resolve_of_select_error (select_of_chosen_error (chosenStage_of_empty hcs))
    have hT : noCandidatesTrigger env extension_name cur_version index_url target_version
        cli_ctx = true := by
      simp [noCandidatesTrigger, hcs]
    exact ⟨⟨fun _ => hT, fun _ => ⟨_, hR⟩⟩, Or.inr (Or.inl ⟨_, hR⟩)⟩
  | false =>
    cases hf : filterStage env cur_version target_version
        (env.getIndexExtensions index_url cli_ctx extension_name) with
    | error e =>
      rcases filterStage_error_kind hf with ⟨s, rfl⟩
      have hR := resolve_of_select_error (select_of_chosen_error
        (chosenStage_of_filter_error hcs hf))
      have hT : noCandidatesTrigger env extension_name cur_version index_url target_version
          cli_ctx = false := by
        simp [noCandidatesTrigger, hcs, hf, chosenStage_of_filter_error hcs hf]
      refine ⟨⟨fun hex => ?_, fun h2 => ?_⟩, Or.inr (Or.inr ⟨s, hR⟩)⟩
      · rcases hex with ⟨m, hm⟩
        rw [hR] at hm
        exact absurd hm (by simp)
      · rw [hT] at h2
        exact absurd h2 (by simp)
    | ok fcs =>
      cases fcs with
      | nil =>
        have hR := resolve_of_select_error (select_of_chosen_error
          (chosenStage_of_filter_empty hcs hf))
        have hT : noCandidatesTrigger env extension_name cur_version index_url target_version
            cli_ctx = true := by
          simp [noCandidatesTrigger, hcs, hf]
        exact ⟨⟨fun _ => hT, fun _ => ⟨_, hR⟩⟩, Or.inr (Or.inl ⟨_, hR⟩)⟩
      | cons a l =>
        have hfne : (a :: l).isEmpty = false := rfl
        cases hs : sortCandidates env (a :: l) with
        | error e =>
          rcases sortCandidates_error_kind hs with ⟨s, rfl⟩
          have hch := chosenStage_of_sort_error hcs hf hfne hs
          have hR := resolve_of_select_error (select_of_chosen_error hch)
          have hT : noCandidatesTrigger env extension_name cur_version index_url target_version
              cli_ctx = false := by
            simp [noCandidatesTrigger, hcs, hf, hs, hch]
          refine ⟨⟨fun hex => ?_, fun h2 => ?_⟩, Or.inr (Or.inr ⟨s, hR⟩)⟩
          · rcases hex with ⟨m, hm⟩
            rw [hR] at hm
            exact absurd hm (by simp)
          · rw [hT] at h2
            exact absurd h2 (by simp)
        | ok sorted =>
          have hch := chosenStage_of_stages hcs hf hfne hs
          cases hsorted : sorted with
          | nil =>
            have hperm := sortCandidates_ok_perm hs
            rw [hsorted] at hperm
            exact absurd hperm.length_eq (by simp)
          | cons c0 rest0 =>
            cases ht : truthy target_version with
            | false =>
              have hch2 : chosenStage env extension_name cur_version index_url target_version
                  cli_ctx = .ok c0 := by
                rw [hch, hsorted, chooseCandidate_falsy ht]
                rfl
              cases hurl : truthy c0.downloadUrl with
              | false =>
                have hsel := select_of_chosen_ok hch2
                rw [hurl] at hsel
                simp only [Bool.not_false, if_true] at hsel
                have hR := resolve_of_select_error hsel
                have hT : noCandidatesTrigger env extension_name cur_version index_url
                    target_version cli_ctx = true := by
                  simp [noCandidatesTrigger, hcs, hf, hs, hch2, ht, hurl]
                exact ⟨⟨fun _ => hT, fun _ => ⟨_, hR⟩⟩, Or.inr (Or.inl ⟨_, hR⟩)⟩
              | true =>
                have hsel := select_of_chosen_ok hch2
                rw [hurl] at hsel
                simp only [Bool.not_true, Bool.false_eq_true, if_false] at hsel
                have hR := resolve_of_select_ok hsel
                have hT : noCandidatesTrigger env extension_name cur_version index_url
                    target_version cli_ctx = false := by
                  simp [noCandidatesTrigger, hcs, hf, hs, hch2, ht, hurl]
                refine ⟨⟨fun hex => ?_, fun h2 => ?_⟩, Or.inl ⟨_, hR⟩⟩
                · rcases hex with ⟨m, hm⟩
                  rw [hR] at hm
                  exact absurd hm (by simp)
                · rw [hT] at h2
                  exact absurd h2 (by simp)
            | true =>
              cases hfind : ((c0 :: rest0).filter
                  (fun c => c.metadata.version == target_version.getD "")).head? with
              | none =>
                rcases chooseCandidate_truthy_none ht hfind with ⟨m, hcc⟩
                rw [hsorted] at hch
                have hch2 := hch.trans hcc
                have hR := resolve_of_select_error (select_of_chosen_error hch2)
                have hfe := isEmpty_true_of_head?_none hfind
                have hT : noCandidatesTrigger env extension_name cur_version index_url
                    target_version cli_ctx = true := by
                  simp [noCandidatesTrigger, hcs, hf, hs, ht, hsorted, hfe]
                exact ⟨⟨fun _ => hT, fun _ => ⟨m, hR⟩⟩, Or.inr (Or.inl ⟨m, hR⟩)⟩
              | some c1 =>
                have hcc := chooseCandidate_truthy_some ht hfind
                rw [hsorted] at hch
                have hch2 := hch.trans hcc
                have hfe := isEmpty_false_of_head?_some hfind
                cases hurl : truthy c1.downloadUrl with
                | false =>
                  have hsel := select_of_chosen_ok hch2
                  rw [hurl] at hsel
                  simp only [Bool.not_false, if_true] at hsel
                  have hR := resolve_of_select_error hsel
                  have hT : noCandidatesTrigger env extension_name cur_version index_url
                      target_version cli_ctx = true := by
                    simp [noCandidatesTrigger, hcs, hf, hs, hch2, ht, hurl]
                  exact ⟨⟨fun _ => hT, fun _ => ⟨_, hR⟩⟩, Or.inr (Or.inl ⟨_, hR⟩)⟩
                | true =>
                  have hsel := select_of_chosen_ok hch2
                  rw [hurl] at hsel
                  simp only [Bool.not_true, Bool.false_eq_true, if_false] at hsel
                  have hR := resolve_of_select_ok hsel
                  have hT : noCandidatesTrigger env extension_name cur_version index_url
                      target_version cli_ctx = false := by
                    simp [noCandidatesTrigger, hcs, hf, hs, hch2, ht, hurl, hsorted, hfe]
                  refine ⟨⟨fun hex => ?_, fun h2 => ?_⟩, Or.inl ⟨_, hR⟩⟩
                  · rcases hex with ⟨m, hm⟩
                    rw [hR] at hm
                    exact absurd hm (by simp)
                  · rw [hT] at h2
                    exact absurd h2 (by simp)

end AzExtResolve
